import Mathlib

/-!
# A verification model of `cards.py` (mtg-localbase)

Shallow embedding of the catalog synchronization engine in `src/cards.py`
(`MTGCardDatabase`).  SQLite tables are modelled as Lean lists of rows in
rowid (insertion) order; `UPDATE` maps over rows in place, `INSERT` appends,
and an `INSERT` that violates a primary key yields an `IntegrityError`
marker, mirroring sqlite3.  A Python dict coming from JSON is modelled as an
association list (key lookup = first match).  `datetime.now().isoformat()`
is modelled as an explicit timestamp parameter threaded through a run.
Exceptions are modelled by pairing the connection-visible state with an
optional error string: an operation that raises returns the state as the
cursor saw it at the moment of the raise (`conn.commit`/rollback
granularity is not modelled; all claims below are about the cursor-visible
state).  The HTTP layer is abstracted: a successful paginated fetch is the
list of its pages' `data` arrays, and `update_database`'s first response is
a parameter.  REAL-affinity coercion of price strings is not modelled:
price values flow through unchanged.
-/

namespace MTGLocal

/-- dict.get-style lookup in an association list (first binding wins). -/
def dictGet (d : List (String × String)) (k : String) : Option String :=
  (d.find? (fun p => p.1 == k)).map (·.2)

/-- One entry of a card's `card_faces` array, with the fields
`process_card_page` reads: the face's own `oracle_text` and `image_uris`. -/
structure Face where
  oracle_text : Option String
  image_uris : Option (List (String × String))
deriving DecidableEq, Repr

/-- A raw record from the remote API, restricted to the keys
`process_card_page` reads.  `none` models an absent key. -/
structure RawCard where
  id : Option String
  name : Option String
  oracle_text : Option String
  mana_cost : Option String
  cmc : Option Rat
  type_line : Option String
  power : Option String
  toughness : Option String
  loyalty : Option String
  colors : Option (List String)
  color_identity : Option (List String)
  set : Option String
  set_name : Option String
  rarity : Option String
  artist : Option String
  released_at : Option String
  scryfall_uri : Option String
  image_uris : Option (List (String × String))
  card_faces : Option (List Face)
  legalities : Option (List (String × String))
  keywords : Option (List String)
  prices : Option (List (String × String))
deriving DecidableEq, Repr

/-- A row of the `cards` table (the 22 columns of the schema). -/
structure CardRow where
  id : String
  name : String
  oracle_text : String
  mana_cost : String
  cmc : Rat
  type_line : String
  power : String
  toughness : String
  loyalty : String
  colors : String
  color_identity : String
  set_code : String
  set_name : String
  rarity : String
  artist : String
  released_at : String
  image_uri : Option String
  scryfall_uri : String
  price_usd : Option String
  price_eur : Option String
  price_tix : Option String
  last_updated : String
deriving DecidableEq, Repr

/-- A row of the `legalities` table; primary key (`card_id`, `format`). -/
structure LegRow where
  card_id : String
  format : String
  status : String
deriving DecidableEq, Repr

/-- A row of the `keywords` table; primary key (`card_id`, `keyword`). -/
structure KwRow where
  card_id : String
  keyword : String
deriving DecidableEq, Repr

/-- The database state: the three tables, rows in rowid order. -/
structure Store where
  cards : List CardRow
  legalities : List LegRow
  keywords : List KwRow
deriving DecidableEq, Repr

/-- A freshly created database (after `create_tables`). -/
def Store.empty : Store := ⟨[], [], []⟩

/-! ## CardRecordNormalizer: the pure field computations of
`process_card_page` (src/cards.py lines 209-254). -/

/-- `json.dumps` escaping of one character inside a string literal
(quotation mark and backslash; other characters used by this data pass
through unchanged). -/
def jsonEscapeChar (c : Char) : List Char :=
  if c = '"' ∨ c = '\\' then ['\\', c] else [c]

/-- `json.dumps` escaping of a string body. -/
def jsonEscape (s : String) : String :=
  ⟨(s.toList.map jsonEscapeChar).flatten⟩

/-- A JSON string literal, as `json.dumps` prints it. -/
def jsonStr (s : String) : String := "\"" ++ jsonEscape s ++ "\""

/-- The comma-separated items of a JSON array (`json.dumps` uses the
separator comma-space by default). -/
def jsonItems : List String → String
  | [] => ""
  | [x] => jsonStr x
  | x :: y :: rest => jsonStr x ++ ", " ++ jsonItems (y :: rest)

/-- `json.dumps` of a list of strings, e.g. the colors column value. -/
def jsonList (l : List String) : String := "[" ++ jsonItems l ++ "]"

/-- Oracle-text normalization (lines 210-217): the direct field if truthy,
else the `" // "`-join of the faces' own texts when `card_faces` is
present, else the (empty) direct default. -/
def normOracle (r : RawCard) : String :=
  let direct := r.oracle_text.getD ""
  match r.card_faces with
  | some faces =>
      if direct = "" then
        String.intercalate " // " (faces.filterMap Face.oracle_text)
      else direct
  | none => direct

/-- Image normalization (lines 223-228).  `card['card_faces'][0]` on an
empty faces list raises IndexError, hence the `Except`. -/
def normImage (r : RawCard) : Except String (Option String) :=
  match r.image_uris with
  | some d =>
      if (dictGet d "normal").isSome then .ok (dictGet d "normal")
      else normImageFaces r
  | none => normImageFaces r
where
  /-- The `elif` arm: consult only the first face. -/
  normImageFaces (r : RawCard) : Except String (Option String) :=
    match r.card_faces with
    | none => .ok none
    | some [] => .error "IndexError: list index out of range"
    | some (f :: _) =>
        match f.image_uris with
        | some d => .ok (dictGet d "normal")
        | none => .ok none

/-- The `card_data` tuple (lines 231-254), given the card id, the computed
image uri and the ingestion timestamp. -/
def cardData (card_id : String) (r : RawCard) (img : Option String)
    (now : String) : CardRow :=
  { id := card_id
    name := r.name.getD ""
    oracle_text := normOracle r
    mana_cost := r.mana_cost.getD ""
    cmc := r.cmc.getD 0
    type_line := r.type_line.getD ""
    power := r.power.getD ""
    toughness := r.toughness.getD ""
    loyalty := r.loyalty.getD ""
    colors := jsonList (r.colors.getD [])
    color_identity := jsonList (r.color_identity.getD [])
    set_code := r.set.getD ""
    set_name := r.set_name.getD ""
    rarity := r.rarity.getD ""
    artist := r.artist.getD ""
    released_at := r.released_at.getD ""
    image_uri := img
    scryfall_uri := r.scryfall_uri.getD ""
    price_usd := dictGet (r.prices.getD []) "usd"
    price_eur := dictGet (r.prices.getD []) "eur"
    price_tix := dictGet (r.prices.getD []) "tix"
    last_updated := now }

/-- The legality rows a record contributes (lines 284-289); the record's
`legalities` dict iterated in order. -/
def legsOf (card_id : String) (r : RawCard) : List LegRow :=
  (r.legalities.getD []).map (fun p => ⟨card_id, p.1, p.2⟩)

/-- The keyword rows a record contributes (lines 292-297); the empty-list
truthiness guard contributes no rows either way. -/
def kwsOf (card_id : String) (r : RawCard) : List KwRow :=
  (r.keywords.getD []).map (fun k => ⟨card_id, k⟩)

/-! ## CatalogStore write path -/

/-- Sequential `INSERT INTO legalities`: stops with an IntegrityError at
the first primary-key conflict, keeping the rows inserted before it. -/
def insertLegs (t : List LegRow) : List LegRow → List LegRow × Option String
  | [] => (t, none)
  | row :: rest =>
      if t.any (fun x => x.card_id == row.card_id && x.format == row.format)
      then (t, some "IntegrityError: legalities")
      else insertLegs (t ++ [row]) rest

/-- Sequential `INSERT INTO keywords`, as `insertLegs`. -/
def insertKws (t : List KwRow) : List KwRow → List KwRow × Option String
  | [] => (t, none)
  | row :: rest =>
      if t.any (fun x => x.card_id == row.card_id && x.keyword == row.keyword)
      then (t, some "IntegrityError: keywords")
      else insertKws (t ++ [row]) rest

/-- One iteration of the `for card in cards` loop of `process_card_page`
(lines 191-297).  Returns the cursor-visible state plus the exception that
escaped the iteration, if any. -/
def processCard (s : Store) (card : RawCard) (update_existing : Bool)
    (now : String) : Store × Option String :=
  match card.id with
  | none => (s, some "KeyError: id")
  | some card_id =>
    let existing := s.cards.any (fun c => c.id == card_id)
    if existing && !update_existing then (s, none)
    else
      match normImage card with
      | .error e => (s, some e)
      | .ok img =>
        let row := cardData card_id card img now
        let cards' :=
          if existing then
            s.cards.map (fun c => if c.id == card_id then row else c)
          else s.cards ++ [row]
        let legs0 :=
          if existing then
            s.legalities.filter (fun x => ¬ x.card_id == card_id)
          else s.legalities
        let kws0 :=
          if existing then
            s.keywords.filter (fun x => ¬ x.card_id == card_id)
          else s.keywords
        match insertLegs legs0 (legsOf card_id card) with
        | (legs1, some e) => (⟨cards', legs1, kws0⟩, some e)
        | (legs1, none) =>
          match insertKws kws0 (kwsOf card_id card) with
          | (kws1, some e) => (⟨cards', legs1, kws1⟩, some e)
          | (kws1, none) => (⟨cards', legs1, kws1⟩, none)

/-- `process_card_page` over one page's `data` array: processes records in
order and stops at the first record whose iteration raises (there is no
per-record try/except in the source). -/
def processPage (s : Store) (cards : List RawCard) (update_existing : Bool)
    (now : String) : Store × Option String :=
  match cards with
  | [] => (s, none)
  | c :: rest =>
    match processCard s c update_existing now with
    | (s', none) => processPage s' rest update_existing now
    | (s', some e) => (s', some e)

/-! ## SyncOrchestrator -/

/-- The shared page loop of `fetch_all_cards`/`update_database` over an
already-fetched list of pages: an exception escaping `process_card_page`
stops the run. -/
def runPages (s : Store) (pages : List (List RawCard))
    (update_existing : Bool) (now : String) : Store × Option String :=
  match pages with
  | [] => (s, none)
  | p :: rest =>
    match processPage s p update_existing now with
    | (s', none) => runPages s' rest update_existing now
    | (s', some e) => (s', some e)

/-- `fetch_all_cards` (lines 75-122) on the transport happy path: the
source answers every page with status 200 and the pages carry these `data`
arrays.  An exception from `process_card_page` propagates to the caller
uncaught (there is no try/except in `fetch_all_cards`). -/
def fetch_all_cards (s : Store) (pages : List (List RawCard))
    (update_existing : Bool) (now : String) : Store × Option String :=
  runPages s pages update_existing now

/-- The lexicographic TEXT comparison sqlite's MAX performs on this
ASCII-date data, as an executable character-list test (it agrees with the
`<` order on `String`). -/
def strLtB (a b : String) : Bool := decide (a.toList < b.toList)

/-- One accumulation step of `SELECT MAX(...)` over a TEXT column: keep
the larger value, starting from NULL. -/
def sqlMaxStep (acc : Option String) (d : String) : Option String :=
  match acc with
  | none => some d
  | some m => if strLtB m d then some d else some m

/-- `SELECT MAX(released_at) FROM cards` (line 130): sqlite MAX over TEXT,
i.e. the lexicographically largest value, NULL on an empty table. -/
def maxReleasedAt (s : Store) : Option String :=
  (s.cards.map CardRow.released_at).foldl sqlMaxStep none

/-- Line 132: `result[0] if result[0] else "2000-01-01"` — Python
truthiness, so both NULL and the empty string fall back to the sentinel. -/
def last_update_date (s : Store) : String :=
  match maxReleasedAt s with
  | none => "2000-01-01"
  | some d => if d = "" then "2000-01-01" else d

/-- Line 137: the Scryfall search query string of `update_database`. -/
def search_query (s : Store) : String := "date>" ++ last_update_date s

/-- The first response of `update_database`'s date-bounded query. -/
inductive Response where
  | notFound
  | httpError (code : Nat)
  | ok (pages : List (List RawCard))
deriving DecidableEq, Repr

/-- How an `update_database` run returned (it always returns normally: its
body is wrapped in `try ... except Exception`). -/
inductive UpdateOutcome where
  /-- 404: "No new cards found since the last update." -/
  | noNewCards
  /-- non-200, non-404 first response: "Error fetching updates". -/
  | fetchErr (code : Nat)
  /-- normal completion, with the records-processed counter. -/
  | completed (n : Nat)
  /-- an exception was caught by the `except` clause after `n` records had
  been counted; the run still returns normally. -/
  | errorCaught (n : Nat) (e : String)
deriving DecidableEq, Repr

/-- The page loop of `update_database` with its `cards_processed` counter
(incremented per page after the page is processed). -/
def updatePages (s : Store) (pages : List (List RawCard)) (n : Nat)
    (now : String) : Store × UpdateOutcome :=
  match pages with
  | [] => (s, .completed n)
  | p :: rest =>
    match processPage s p true now with
    | (s', none) => updatePages s' rest (n + p.length) now
    | (s', some e) => (s', .errorCaught n e)

/-- `update_database` (lines 124-181): compute the watermark, issue the
query (the response is a parameter), and process pages in overwrite mode;
any exception is caught and the function returns normally. -/
def update_database (s : Store) (resp : Response) (now : String) :
    Store × UpdateOutcome :=
  match resp with
  | .notFound => (s, .noNewCards)
  | .httpError c => (s, .fetchErr c)
  | .ok pages => updatePages s pages 0 now

/-! ## search_cards (lines 301-330) -/

/-- SQLite `LIKE` matching, fuelled so that it evaluates by structural
recursion: every recursive call shrinks `p.length + s.length`, so the fuel
supplied by `likeMatch` below never runs out. -/
def likeMatchF (fuel : Nat) (p s : List Char) : Bool :=
  match fuel with
  | 0 => false
  | fuel + 1 =>
    match p, s with
    | [], [] => true
    | [], _ :: _ => false
    | '%' :: ps, s =>
        likeMatchF fuel ps s ||
          (match s with
           | [] => false
           | _ :: s' => likeMatchF fuel ('%' :: ps) s')
    | '_' :: ps, _ :: s => likeMatchF fuel ps s
    | p :: ps, c :: s => p.toLower == c.toLower && likeMatchF fuel ps s
    | _ :: _, [] => false

/-- SQLite `LIKE` matching of a whole string against a pattern: `%`
matches any run, `_` any single character, other characters match ASCII
case-insensitively. -/
def likeMatch (p s : List Char) : Bool :=
  likeMatchF (p.length + s.length + 1) p s

/-- Line 312: `search_pattern = f"%\x7bquery\x7d%"`. -/
def likePattern (q : String) : List Char := '%' :: (q.toList ++ ['%'])

/-- A row of `search_cards`'s result set. -/
structure SearchHit where
  id : String
  name : String
  oracle_text : String
  mana_cost : String
  type_line : String
deriving DecidableEq, Repr

/-- `search_cards` (lines 301-330): rows, in table order, whose name,
oracle text or type line LIKE-matches `%query%`, truncated by LIMIT. -/
def search_cards (s : Store) (query : String) (limit : Nat) :
    List SearchHit :=
  ((s.cards.filter (fun c =>
      likeMatch (likePattern query) c.name.toList ||
      likeMatch (likePattern query) c.oracle_text.toList ||
      likeMatch (likePattern query) c.type_line.toList)).take limit).map
    (fun c => ⟨c.id, c.name, c.oracle_text, c.mana_cost, c.type_line⟩)

/-! ## get_stats (lines 378-434) -/

/-- ASCII-case-insensitive substring containment: the meaning of
`column LIKE '%lit%'` for a wildcard-free literal `lit` (SQLite LIKE is
ASCII-case-insensitive by default). -/
def ciContains (hay lit : String) : Bool :=
  decide ((lit.toList.map Char.toLower) <:+: (hay.toList.map Char.toLower))

/-- The color-group CASE expression of `get_stats` (lines 394-402): exact
string comparison against the encoded color_identity column. -/
def colorGroupOf (ci : String) : String :=
  if ci = "[]" then "Colorless"
  else if ci = "[\"W\"]" then "White"
  else if ci = "[\"U\"]" then "Blue"
  else if ci = "[\"B\"]" then "Black"
  else if ci = "[\"R\"]" then "Red"
  else if ci = "[\"G\"]" then "Green"
  else "Multicolor"

/-- The type-group CASE expression of `get_stats` (lines 413-422). -/
def typeGroupOf (tl : String) : String :=
  if ciContains tl "Creature" then "Creature"
  else if ciContains tl "Planeswalker" then "Planeswalker"
  else if ciContains tl "Instant" then "Instant"
  else if ciContains tl "Sorcery" then "Sorcery"
  else if ciContains tl "Enchantment" then "Enchantment"
  else if ciContains tl "Artifact" then "Artifact"
  else if ciContains tl "Land" then "Land"
  else "Other"

/-- The color-distribution count `get_stats` reports for one group. -/
def colorGroupCount (s : Store) (g : String) : Nat :=
  (s.cards.filter (fun c => colorGroupOf c.color_identity == g)).length

/-- The type-distribution count `get_stats` reports for one group. -/
def typeGroupCount (s : Store) (g : String) : Nat :=
  (s.cards.filter (fun c => typeGroupOf c.type_line == g)).length

/-! ## Derived definitions, canonical stores and concrete test data -/

def cidOf (r : RawCard) : String := r.id.getD ""

def imgOf (r : RawCard) : Option String :=
  match normImage r with
  | .ok i => i
  | .error _ => none

def rowOf (now : String) (r : RawCard) : CardRow :=
  cardData (cidOf r) r (imgOf r) now

def RecordOk (r : RawCard) : Prop :=
  r.id.isSome = true ∧ (normImage r).isOk = true ∧
  ((r.legalities.getD []).map Prod.fst).Nodup ∧ (r.keywords.getD []).Nodup

instance (r : RawCard) : Decidable (RecordOk r) := by
  unfold RecordOk; infer_instance

def canonCards (t : String) (rs : List RawCard) : List CardRow :=
  rs.map (rowOf t)

def canonLegs (rs : List RawCard) : List LegRow :=
  rs.flatMap (fun r => legsOf (cidOf r) r)

def canonKws (rs : List RawCard) : List KwRow :=
  rs.flatMap (fun r => kwsOf (cidOf r) r)

def canonStore (t : String) (rs : List RawCard) : Store :=
  ⟨canonCards t rs, canonLegs rs, canonKws rs⟩

def eraseLU (c : CardRow) : CardRow := { c with last_updated := "" }

/-- A concrete well-formed raw record (blue instant). -/
def sampleA : RawCard :=
  { id := some "a1", name := some "Alpha Bolt", oracle_text := some "Counter target spell.",
    mana_cost := some "1U", cmc := some 2, type_line := some "Instant",
    power := none, toughness := none, loyalty := none,
    colors := some ["U"], color_identity := some ["U"],
    set := some "alp", set_name := some "Alpha Set", rarity := some "common",
    artist := some "A. Artist", released_at := some "2020-01-01",
    scryfall_uri := some "https-a1", image_uris := some [("normal", "img-a1")],
    card_faces := none,
    legalities := some [("standard", "legal"), ("modern", "legal")],
    keywords := some ["Flying"], prices := some [("usd", "0.10")] }

/-- A second concrete well-formed raw record (artifact creature). -/
def sampleB : RawCard :=
  { id := some "b2", name := some "Beta Golem", oracle_text := none,
    mana_cost := some "3", cmc := some 3,
    type_line := some "Artifact Creature — Golem",
    power := some "2", toughness := some "2", loyalty := none,
    colors := some [], color_identity := some [],
    set := some "bet", set_name := some "Beta Set", rarity := some "rare",
    artist := some "B. Artist", released_at := some "2023-05-05",
    scryfall_uri := some "https-b2", image_uris := none,
    card_faces := none,
    legalities := some [("modern", "legal")],
    keywords := some [], prices := none }

/-- Shrunken re-ingestion of `sampleA`: same id, legalities reduced to
modern only. -/
def sampleAShrunk : RawCard :=
  { sampleA with legalities := some [("modern", "legal")] }

/-- The store after ingesting `sampleA` once. -/
def storeWithA : Store := (processCard Store.empty sampleA true "T1").1

/-- A record without an `id` key: `card['id']` raises KeyError. -/
def badNoId : RawCard := { sampleB with id := none }

/-- A record whose keyword list holds a duplicate: the second keyword
INSERT violates the (card_id, keyword) primary key. -/
def dupKwRec : RawCard :=
  { sampleA with id := some "d4", keywords := some ["Flying", "Flying"] }

/-- Whether the record has no direct normal-size image (key chain
`image_uris` → `normal` absent), so the faces fallback is consulted. -/
def noDirectImage (r : RawCard) : Bool :=
  match r.image_uris with
  | some d => (dictGet d "normal").isNone
  | none => true

/-- A double-faced record with no direct text: faces carry "A" and "B". -/
def dfRec : RawCard :=
  { sampleB with
    id := some "df1", oracle_text := none,
    card_faces := some [⟨some "A", none⟩, ⟨some "B", none⟩] }

/-- A record with no direct image but a first face carrying one. -/
def faceImgRec : RawCard :=
  { sampleB with
    id := some "f1", image_uris := none,
    card_faces := some [⟨some "A", some [("normal", "face-uri")]⟩,
                        ⟨some "B", some [("normal", "other-uri")]⟩] }

/-- A record with an empty `card_faces` array and no direct image:
`card['card_faces'][0]` raises IndexError. -/
def emptyFacesRec : RawCard :=
  { sampleB with
    id := some "e5", image_uris := none, card_faces := some [] }

/-- The store holding `sampleA` (released 2020-01-01) and `sampleB`
(released 2023-05-05). -/
def twoCardStore : Store :=
  (fetch_all_cards Store.empty [[sampleA, sampleB]] true "T1").1

/-- A record with no `released_at` key: the stored row carries the empty
string in that column. -/
def noRelRec : RawCard :=
  { sampleB with
    id := some "n6", released_at := none }

/-- The one-card store whose only `released_at` value is the empty
string. -/
def noRelStore : Store := (processCard Store.empty noRelRec true "T").1

/-- The spec's color classification, stated on the decoded color-identity
list: empty → Colorless, a single canonical color → its name, anything
else → Multicolor. -/
def specColorGroup : List String → String
  | [] => "Colorless"
  | [c] =>
      if c = "W" then "White"
      else if c = "U" then "Blue"
      else if c = "B" then "Black"
      else if c = "R" then "Red"
      else if c = "G" then "Green"
      else "Multicolor"
  | _ => "Multicolor"

/-- The spec's fixed type priority order. -/
def typePriority : List String :=
  ["Creature", "Planeswalker", "Instant", "Sorcery", "Enchantment",
   "Artifact", "Land"]

/-- The spec's type classification: first match over the fixed ordered
substring list, fallback "Other". -/
def specTypeGroup (tl : String) : String :=
  (typePriority.find? (fun p => ciContains tl p)).getD "Other"

/-- A color code free of JSON escape characters. -/
def cleanColor (c : String) : Bool :=
  c.toList.all (fun ch => !(ch == '"') && !(ch == '\\'))

/-- Literal (non-wildcard) substring containment, for contrast with
LIKE matching. -/
def litContains (hay ndl : String) : Bool :=
  decide (ndl.toList <:+: hay.toList)

/-- A record whose name matches the wildcard query but not the literal. -/
def wildRaw : RawCard :=
  { sampleB with
    id := some "w7", name := some "aXYz",
    oracle_text := some "Something else", type_line := some "Instant" }

/-- A one-card store for the wildcard search experiment. -/
def wildStore : Store := (processCard Store.empty wildRaw true "T").1

/-! ## Theorems -/

theorem processPage_append (s : Store) (a b : List RawCard) (u : Bool) (t : String) :
    processPage s (a ++ b) u t =
      match processPage s a u t with
      | (s', none) => processPage s' b u t
      | (s', some e) => (s', some e) := by
  induction a generalizing s with
  | nil => simp [processPage]
  | cons c rest ih =>
    simp only [List.cons_append, processPage]
    rcases h : processCard s c u t with ⟨s', err⟩
    cases err with
    | none => simp [ih]
    | some e => simp

theorem runPages_eq_flatten (s : Store) (pages : List (List RawCard))
    (u : Bool) (t : String) :
    runPages s pages u t = processPage s pages.flatten u t := by
  induction pages generalizing s with
  | nil => simp [runPages, processPage]
  | cons p rest ih =>
    rw [List.flatten_cons, processPage_append]
    simp only [runPages]
    rcases h : processPage s p u t with ⟨s', err⟩
    cases err with
    | none => simp [ih]
    | some e => simp

/-- Successful bulk insert into `legalities`: no incoming row conflicts
with the table and the incoming rows are pairwise conflict-free. -/
theorem insertLegs_ok (new : List LegRow) : ∀ (t : List LegRow),
    (∀ y ∈ new, ∀ x ∈ t, ¬(x.card_id = y.card_id ∧ x.format = y.format)) →
    new.Pairwise (fun a b => ¬(a.card_id = b.card_id ∧ a.format = b.format)) →
    insertLegs t new = (t ++ new, none) := by
  induction new with
  | nil => intro t _ _; simp [insertLegs]
  | cons row rest ih =>
    intro t h hp
    have hany : (t.any fun x => x.card_id == row.card_id && x.format == row.format) = false := by
      simp only [List.any_eq_false, Bool.and_eq_true, beq_iff_eq, not_and]
      intro x hx
      have := h row (by simp) x hx
      tauto
    rw [insertLegs, hany]
    simp only [Bool.false_eq_true, if_false]
    rw [ih (t ++ [row])]
    · simp
    · intro y hy x hx
      rcases List.mem_append.1 hx with hx' | hx'
      · exact h y (by simp [hy]) x hx'
      · have hrow : x = row := by simpa using hx'
        subst hrow
        exact (List.pairwise_cons.1 hp).1 y hy
    · exact (List.pairwise_cons.1 hp).2

theorem insertKws_ok (new : List KwRow) : ∀ (t : List KwRow),
    (∀ y ∈ new, ∀ x ∈ t, ¬(x.card_id = y.card_id ∧ x.keyword = y.keyword)) →
    new.Pairwise (fun a b => ¬(a.card_id = b.card_id ∧ a.keyword = b.keyword)) →
    insertKws t new = (t ++ new, none) := by
  induction new with
  | nil => intro t _ _; simp [insertKws]
  | cons row rest ih =>
    intro t h hp
    have hany : (t.any fun x => x.card_id == row.card_id && x.keyword == row.keyword) = false := by
      simp only [List.any_eq_false, Bool.and_eq_true, beq_iff_eq, not_and]
      intro x hx
      have := h row (by simp) x hx
      tauto
    rw [insertKws, hany]
    simp only [Bool.false_eq_true, if_false]
    rw [ih (t ++ [row])]
    · simp
    · intro y hy x hx
      rcases List.mem_append.1 hx with hx' | hx'
      · exact h y (by simp [hy]) x hx'
      · have hrow : x = row := by simpa using hx'
        subst hrow
        exact (List.pairwise_cons.1 hp).1 y hy
    · exact (List.pairwise_cons.1 hp).2

theorem legsOf_card_id (cid : String) (r : RawCard) :
    ∀ x ∈ legsOf cid r, x.card_id = cid := by
  intro x hx
  simp only [legsOf, List.mem_map] at hx
  obtain ⟨p, _, rfl⟩ := hx
  rfl

theorem kwsOf_card_id (cid : String) (r : RawCard) :
    ∀ x ∈ kwsOf cid r, x.card_id = cid := by
  intro x hx
  simp only [kwsOf, List.mem_map] at hx
  obtain ⟨p, _, rfl⟩ := hx
  rfl

theorem legsOf_pairwise (cid : String) (r : RawCard)
    (hfmt : ((r.legalities.getD []).map Prod.fst).Nodup) :
    (legsOf cid r).Pairwise
      (fun a b => ¬(a.card_id = b.card_id ∧ a.format = b.format)) := by
  rw [legsOf, List.pairwise_map]
  rw [List.Nodup, List.pairwise_map] at hfmt
  exact hfmt.imp (by intro a b h hc; exact h hc.2)

theorem kwsOf_pairwise (cid : String) (r : RawCard)
    (hkw : (r.keywords.getD []).Nodup) :
    (kwsOf cid r).Pairwise
      (fun a b => ¬(a.card_id = b.card_id ∧ a.keyword = b.keyword)) := by
  rw [kwsOf, List.pairwise_map]
  exact hkw.imp (by intro a b h hc; exact h hc.2)

/-- The fresh-insert path of one `process_card_page` iteration: the id is
absent from `cards` and the associative tables hold no rows for it. -/
theorem processCard_insert (s : Store) (r : RawCard) (cid : String)
    (img : Option String) (now : String)
    (hid : r.id = some cid) (himg : normImage r = .ok img)
    (hex : (s.cards.any fun c => c.id == cid) = false)
    (hl : ∀ x ∈ s.legalities, x.card_id ≠ cid)
    (hk : ∀ x ∈ s.keywords, x.card_id ≠ cid)
    (hfmt : ((r.legalities.getD []).map Prod.fst).Nodup)
    (hkw : (r.keywords.getD []).Nodup) :
    processCard s r true now =
      (⟨s.cards ++ [cardData cid r img now],
        s.legalities ++ legsOf cid r,
        s.keywords ++ kwsOf cid r⟩, none) := by
  have hlegs : insertLegs s.legalities (legsOf cid r) =
      (s.legalities ++ legsOf cid r, none) := by
    apply insertLegs_ok
    · intro y hy x hx hc
      exact hl x hx (hc.1.trans (legsOf_card_id cid r y hy))
    · exact legsOf_pairwise cid r hfmt
  have hkws : insertKws s.keywords (kwsOf cid r) =
      (s.keywords ++ kwsOf cid r, none) := by
    apply insertKws_ok
    · intro y hy x hx hc
      exact hk x hx (hc.1.trans (kwsOf_card_id cid r y hy))
    · exact kwsOf_pairwise cid r hkw
  rw [processCard, hid]
  simp only [hex, himg]
  simp [hlegs, hkws]

/-- The overwrite path of one `process_card_page` iteration: the id is
present, so the scalar row is updated in place and the associative rows
for it are deleted and re-inserted. -/
theorem processCard_update (s : Store) (r : RawCard) (cid : String)
    (img : Option String) (now : String)
    (hid : r.id = some cid) (himg : normImage r = .ok img)
    (hex : (s.cards.any fun c => c.id == cid) = true)
    (hfmt : ((r.legalities.getD []).map Prod.fst).Nodup)
    (hkw : (r.keywords.getD []).Nodup) :
    processCard s r true now =
      (⟨s.cards.map (fun c => if c.id == cid then cardData cid r img now else c),
        s.legalities.filter (fun x => ¬ x.card_id == cid) ++ legsOf cid r,
        s.keywords.filter (fun x => ¬ x.card_id == cid) ++ kwsOf cid r⟩,
        none) := by
  have hlegs : insertLegs (s.legalities.filter (fun x => ¬ x.card_id == cid))
      (legsOf cid r) =
      (s.legalities.filter (fun x => ¬ x.card_id == cid) ++ legsOf cid r,
        none) := by
    apply insertLegs_ok
    · intro y hy x hx hc
      have hxc := List.of_mem_filter hx
      simp only [beq_iff_eq, decide_not, Bool.not_eq_true', decide_eq_false_iff_not] at hxc
      exact hxc (hc.1.trans (legsOf_card_id cid r y hy))
    · exact legsOf_pairwise cid r hfmt
  have hkws : insertKws (s.keywords.filter (fun x => ¬ x.card_id == cid))
      (kwsOf cid r) =
      (s.keywords.filter (fun x => ¬ x.card_id == cid) ++ kwsOf cid r,
        none) := by
    apply insertKws_ok
    · intro y hy x hx hc
      have hxc := List.of_mem_filter hx
      simp only [beq_iff_eq, decide_not, Bool.not_eq_true', decide_eq_false_iff_not] at hxc
      exact hxc (hc.1.trans (kwsOf_card_id cid r y hy))
    · exact kwsOf_pairwise cid r hkw
  rw [processCard, hid]
  simp only [hex, himg]
  simp only [beq_iff_eq, decide_not] at hlegs hkws
  simp [hlegs, hkws]

theorem RecordOk.id_eq {r : RawCard} (h : RecordOk r) : r.id = some (cidOf r) := by
  obtain ⟨h1, -, -, -⟩ := h
  cases hr : r.id with
  | none => rw [hr] at h1; simp at h1
  | some c => simp [cidOf, hr]

theorem RecordOk.img_eq {r : RawCard} (h : RecordOk r) :
    normImage r = .ok (imgOf r) := by
  obtain ⟨-, h2, -, -⟩ := h
  unfold imgOf
  cases hr : normImage r with
  | ok i => rfl
  | error e => rw [hr] at h2; simp [Except.isOk, Except.toBool] at h2

theorem rowOf_id (t : String) (r : RawCard) : (rowOf t r).id = cidOf r := rfl

theorem canonLegs_card_id (rs : List RawCard) :
    ∀ x ∈ canonLegs rs, x.card_id ∈ rs.map cidOf := by
  intro x hx
  simp only [canonLegs, List.mem_flatMap] at hx
  obtain ⟨r, hr, hxr⟩ := hx
  exact List.mem_map.2 ⟨r, hr, (legsOf_card_id _ _ _ hxr).symm ▸ rfl⟩

theorem canonKws_card_id (rs : List RawCard) :
    ∀ x ∈ canonKws rs, x.card_id ∈ rs.map cidOf := by
  intro x hx
  simp only [canonKws, List.mem_flatMap] at hx
  obtain ⟨r, hr, hxr⟩ := hx
  exact List.mem_map.2 ⟨r, hr, (kwsOf_card_id _ _ _ hxr).symm ▸ rfl⟩

theorem canonCards_append (t : String) (a b : List RawCard) :
    canonCards t (a ++ b) = canonCards t a ++ canonCards t b := by
  simp [canonCards]

theorem canonLegs_append (a b : List RawCard) :
    canonLegs (a ++ b) = canonLegs a ++ canonLegs b := by
  simp [canonLegs]

theorem canonKws_append (a b : List RawCard) :
    canonKws (a ++ b) = canonKws a ++ canonKws b := by
  simp [canonKws]

/-- A full run in overwrite mode over records whose ids are all fresh for
the canonical store: every record takes the insert path, extending the
canonical store. -/
theorem processPage_fresh (t : String) :
    ∀ (rs pre : List RawCard),
      (∀ r ∈ rs, RecordOk r) →
      (((pre ++ rs).map cidOf)).Nodup →
      processPage (canonStore t pre) rs true t
        = (canonStore t (pre ++ rs), none) := by
  intro rs
  induction rs with
  | nil => intro pre _ _; simp [processPage]
  | cons r rest ih =>
    intro pre hok hnd
    have hokr : RecordOk r := hok r (by simp)
    have hnd' := hnd
    rw [List.map_append, List.nodup_append] at hnd'
    obtain ⟨hA, hB, hAB⟩ := hnd'
    have hnotin : cidOf r ∉ pre.map cidOf := by
      intro hc
      exact hAB hc (by simp)
    have hex : ((canonStore t pre).cards.any fun c => c.id == cidOf r) = false := by
      simp only [canonStore, canonCards, List.any_eq_false, List.mem_map]
      rintro c ⟨r', hr', rfl⟩
      simp only [rowOf_id, beq_iff_eq]
      intro hc
      exact hnotin (hc ▸ List.mem_map.2 ⟨r', hr', rfl⟩)
    have hl : ∀ x ∈ (canonStore t pre).legalities, x.card_id ≠ cidOf r := by
      intro x hx hc
      exact hnotin (hc ▸ canonLegs_card_id pre x hx)
    have hk : ∀ x ∈ (canonStore t pre).keywords, x.card_id ≠ cidOf r := by
      intro x hx hc
      exact hnotin (hc ▸ canonKws_card_id pre x hx)
    rw [processPage]
    rw [processCard_insert (canonStore t pre) r (cidOf r) (imgOf r) t
      hokr.id_eq hokr.img_eq hex hl hk hokr.2.2.1 hokr.2.2.2]
    have hstep : (⟨(canonStore t pre).cards ++ [cardData (cidOf r) r (imgOf r) t],
        (canonStore t pre).legalities ++ legsOf (cidOf r) r,
        (canonStore t pre).keywords ++ kwsOf (cidOf r) r⟩ : Store)
        = canonStore t (pre ++ [r]) := by
      simp [canonStore, canonCards_append, canonLegs_append, canonKws_append,
        canonCards, canonLegs, canonKws, rowOf]
    rw [hstep]
    show processPage (canonStore t (pre ++ [r])) rest true t = _
    rw [ih (pre ++ [r]) (fun x hx => hok x (by simp [hx]))
      (by rwa [List.append_assoc, List.singleton_append])]
    rw [List.append_assoc, List.singleton_append]

/-- Re-running a page of already-ingested records in overwrite mode: each
record takes the update path, restamping its row and rotating its
associative rows to the end; the processed prefix accumulates at
timestamp `t2` while the unprocessed suffix still carries `t1`. -/
theorem processPage_rerun (t1 t2 : String) :
    ∀ (suf pre : List RawCard),
      (∀ r ∈ suf, RecordOk r) →
      (((pre ++ suf).map cidOf)).Nodup →
      processPage
        ⟨canonCards t2 pre ++ canonCards t1 suf,
         canonLegs suf ++ canonLegs pre,
         canonKws suf ++ canonKws pre⟩ suf true t2
        = (canonStore t2 (pre ++ suf), none) := by
  intro suf
  induction suf with
  | nil =>
    intro pre _ _
    simp [processPage, canonStore, canonCards, canonLegs, canonKws]
  | cons r rest ih =>
    intro pre hok hnd
    have hokr : RecordOk r := hok r (by simp)
    have hnd' := hnd
    rw [List.map_append, List.nodup_append] at hnd'
    obtain ⟨hA, hB, hAB⟩ := hnd'
    have hnotpre : cidOf r ∉ pre.map cidOf := fun hc => hAB hc (by simp)
    have hnotrest : cidOf r ∉ rest.map cidOf := by
      rw [List.map_cons, List.nodup_cons] at hB
      exact hB.1
    set s0 : Store :=
      ⟨canonCards t2 pre ++ canonCards t1 (r :: rest),
       canonLegs (r :: rest) ++ canonLegs pre,
       canonKws (r :: rest) ++ canonKws pre⟩ with hs0
    have hex : (s0.cards.any fun c => c.id == cidOf r) = true := by
      apply List.any_eq_true.2
      refine ⟨rowOf t1 r, ?_, by simp [rowOf_id]⟩
      apply List.mem_append.2
      right
      simp [canonCards]
    rw [processPage]
    rw [processCard_update s0 r (cidOf r) (imgOf r) t2
      hokr.id_eq hokr.img_eq hex hokr.2.2.1 hokr.2.2.2]
    have hcards : s0.cards.map
        (fun c => if c.id == cidOf r then cardData (cidOf r) r (imgOf r) t2 else c)
        = canonCards t2 (pre ++ [r]) ++ canonCards t1 rest := by
      rw [hs0]
      simp only [List.map_append]
      have h1 : (canonCards t2 pre).map
          (fun c => if c.id == cidOf r then cardData (cidOf r) r (imgOf r) t2 else c)
          = canonCards t2 pre := by
        rw [List.map_congr_left (g := fun c => c), List.map_id']
        rintro c hc
        simp only [canonCards, List.mem_map] at hc
        obtain ⟨r', hr', rfl⟩ := hc
        have : cidOf r' ≠ cidOf r := by
          intro hc'
          exact hnotpre (hc' ▸ List.mem_map.2 ⟨r', hr', rfl⟩)
        simp [rowOf_id, this]
      have h2 : (canonCards t1 (r :: rest)).map
          (fun c => if c.id == cidOf r then cardData (cidOf r) r (imgOf r) t2 else c)
          = rowOf t2 r :: canonCards t1 rest := by
        simp only [canonCards, List.map_cons, List.map_map]
        congr 1
        · rw [if_pos (by simp [rowOf_id])]
          rfl
        · apply List.map_congr_left
          rintro r' hr'
          have : cidOf r' ≠ cidOf r := by
            intro hc'
            exact hnotrest (hc' ▸ List.mem_map.2 ⟨r', hr', rfl⟩)
          simp [Function.comp, rowOf_id, this]
      rw [h1, h2, canonCards_append]
      simp [canonCards]
    have hlegs : s0.legalities.filter (fun x => ¬ x.card_id == cidOf r)
        ++ legsOf (cidOf r) r
        = canonLegs rest ++ canonLegs (pre ++ [r]) := by
      rw [hs0]
      have hcons : canonLegs (r :: rest) = legsOf (cidOf r) r ++ canonLegs rest := by
        simp [canonLegs]
      rw [hcons, List.append_assoc, List.filter_append, List.filter_append]
      have e1 : (legsOf (cidOf r) r).filter (fun x => ¬ x.card_id == cidOf r) = [] := by
        apply List.filter_eq_nil_iff.2
        intro x hx
        simp [legsOf_card_id (cidOf r) r x hx]
      have e2 : (canonLegs rest).filter (fun x => ¬ x.card_id == cidOf r)
          = canonLegs rest := by
        apply List.filter_eq_self.2
        intro x hx
        have := canonLegs_card_id rest x hx
        have hne : x.card_id ≠ cidOf r := by
          intro hc
          exact hnotrest (hc ▸ this)
        simp [hne]
      have e3 : (canonLegs pre).filter (fun x => ¬ x.card_id == cidOf r)
          = canonLegs pre := by
        apply List.filter_eq_self.2
        intro x hx
        have := canonLegs_card_id pre x hx
        have hne : x.card_id ≠ cidOf r := by
          intro hc
          exact hnotpre (hc ▸ this)
        simp [hne]
      rw [e1, e2, e3, canonLegs_append, List.nil_append, List.append_assoc]
      simp [canonLegs]
    have hkws : s0.keywords.filter (fun x => ¬ x.card_id == cidOf r)
        ++ kwsOf (cidOf r) r
        = canonKws rest ++ canonKws (pre ++ [r]) := by
      rw [hs0]
      have hcons : canonKws (r :: rest) = kwsOf (cidOf r) r ++ canonKws rest := by
        simp [canonKws]
      rw [hcons, List.append_assoc, List.filter_append, List.filter_append]
      have e1 : (kwsOf (cidOf r) r).filter (fun x => ¬ x.card_id == cidOf r) = [] := by
        apply List.filter_eq_nil_iff.2
        intro x hx
        simp [kwsOf_card_id (cidOf r) r x hx]
      have e2 : (canonKws rest).filter (fun x => ¬ x.card_id == cidOf r)
          = canonKws rest := by
        apply List.filter_eq_self.2
        intro x hx
        have := canonKws_card_id rest x hx
        have hne : x.card_id ≠ cidOf r := by
          intro hc
          exact hnotrest (hc ▸ this)
        simp [hne]
      have e3 : (canonKws pre).filter (fun x => ¬ x.card_id == cidOf r)
          = canonKws pre := by
        apply List.filter_eq_self.2
        intro x hx
        have := canonKws_card_id pre x hx
        have hne : x.card_id ≠ cidOf r := by
          intro hc
          exact hnotpre (hc ▸ this)
        simp [hne]
      rw [e1, e2, e3, canonKws_append, List.nil_append, List.append_assoc]
      simp [canonKws]
    rw [hcards, hlegs, hkws]
    show processPage
        ⟨canonCards t2 (pre ++ [r]) ++ canonCards t1 rest,
         canonLegs rest ++ canonLegs (pre ++ [r]),
         canonKws rest ++ canonKws (pre ++ [r])⟩ rest true t2 = _
    rw [ih (pre ++ [r]) (fun x hx => hok x (by simp [hx]))
      (by rwa [List.append_assoc, List.singleton_append])]
    rw [List.append_assoc, List.singleton_append]

theorem legsOf_nodup (cid : String) (r : RawCard)
    (hfmt : ((r.legalities.getD []).map Prod.fst).Nodup) :
    (legsOf cid r).Nodup := by
  rw [List.Nodup, legsOf, List.pairwise_map]
  rw [List.Nodup, List.pairwise_map] at hfmt
  refine hfmt.imp ?_
  intro a b h hc
  exact h (congrArg LegRow.format hc)

theorem kwsOf_nodup (cid : String) (r : RawCard)
    (hkw : (r.keywords.getD []).Nodup) :
    (kwsOf cid r).Nodup := by
  rw [List.Nodup, kwsOf, List.pairwise_map]
  refine hkw.imp ?_
  intro a b h hc
  exact h (congrArg KwRow.keyword hc)

theorem canonLegs_nodup (rs : List RawCard)
    (hok : ∀ r ∈ rs, RecordOk r)
    (hnd : (rs.map cidOf).Nodup) :
    (canonLegs rs).Nodup := by
  rw [canonLegs, List.nodup_flatMap]
  constructor
  · intro r hr
    exact legsOf_nodup (cidOf r) r (hok r hr).2.2.1
  · rw [List.Nodup, List.pairwise_map] at hnd
    refine hnd.imp ?_
    intro a b h
    rw [Function.onFun, List.disjoint_left]
    intro x hxa hxb
    exact h ((legsOf_card_id _ _ x hxa).symm.trans (legsOf_card_id _ _ x hxb))

theorem canonKws_nodup (rs : List RawCard)
    (hok : ∀ r ∈ rs, RecordOk r)
    (hnd : (rs.map cidOf).Nodup) :
    (canonKws rs).Nodup := by
  rw [canonKws, List.nodup_flatMap]
  constructor
  · intro r hr
    exact kwsOf_nodup (cidOf r) r (hok r hr).2.2.2
  · rw [List.Nodup, List.pairwise_map] at hnd
    refine hnd.imp ?_
    intro a b h
    rw [Function.onFun, List.disjoint_left]
    intro x hxa hxb
    exact h ((kwsOf_card_id _ _ x hxa).symm.trans (kwsOf_card_id _ _ x hxb))

theorem eraseLU_rowOf (t : String) (r : RawCard) :
    eraseLU (rowOf t r) = rowOf "" r := rfl

/-- A full sync run from an empty store over a well-formed source yields
exactly the canonical store of the source's records. -/
theorem fetch_all_cards_canon (pages : List (List RawCard)) (t : String)
    (hok : ∀ r ∈ pages.flatten, RecordOk r)
    (hnd : (pages.flatten.map cidOf).Nodup) :
    fetch_all_cards Store.empty pages true t
      = (canonStore t pages.flatten, none) := by
  rw [fetch_all_cards, runPages_eq_flatten]
  have h := processPage_fresh t pages.flatten [] hok (by simpa using hnd)
  simpa using h

/-- Re-running a full sync on the canonical store yields the canonical
store restamped at the new timestamp. -/
theorem fetch_all_cards_canon_again (pages : List (List RawCard))
    (t1 t2 : String)
    (hok : ∀ r ∈ pages.flatten, RecordOk r)
    (hnd : (pages.flatten.map cidOf).Nodup) :
    fetch_all_cards (canonStore t1 pages.flatten) pages true t2
      = (canonStore t2 pages.flatten, none) := by
  rw [fetch_all_cards, runPages_eq_flatten]
  have h := processPage_rerun t1 t2 pages.flatten [] hok (by simpa using hnd)
  have hshape : (canonStore t1 pages.flatten)
      = (⟨canonCards t2 [] ++ canonCards t1 pages.flatten,
          canonLegs pages.flatten ++ canonLegs [],
          canonKws pages.flatten ++ canonKws []⟩ : Store) := by
    simp [canonStore, canonCards, canonLegs, canonKws]
  rw [hshape]
  simpa using h

/-- C1 counterexample: against the unchanged one-card source `[[sampleA]]`,
the second full sync leaves a different `cards` table content than the
first — the `last_updated` column is restamped — so the claimed identity
fails at a concrete input. -/
theorem full_sync_twice_cards_not_identical :
    (fetch_all_cards (fetch_all_cards Store.empty [[sampleA]] true
        "2024-01-01T00:00:00").1 [[sampleA]] true "2024-01-02T00:00:00").1.cards
      ≠ (fetch_all_cards Store.empty [[sampleA]] true
        "2024-01-01T00:00:00").1.cards := by decide

/-- C1 (amended): running a full sync (`fetch_all_cards` in overwrite mode)
twice from an empty store against an unchanged well-formed source (each
record has an id, the ids are pairwise distinct, per-record legality
formats and keywords are duplicate-free, and image extraction does not
raise) leaves the `cards` table identical except for the restamped
`last_updated` column, leaves the `legalities` and `keywords` tables
literally identical to those of the first run, and both associative tables
duplicate-free. -/
theorem full_sync_twice_idempotent_mod_last_updated
    (pages : List (List RawCard)) (t1 t2 : String)
    (hok : ∀ r ∈ pages.flatten, RecordOk r)
    (hnd : ((pages.flatten).map cidOf).Nodup) :
    (fetch_all_cards Store.empty pages true t1).2 = none ∧
    (fetch_all_cards (fetch_all_cards Store.empty pages true t1).1
        pages true t2).2 = none ∧
    (fetch_all_cards (fetch_all_cards Store.empty pages true t1).1
        pages true t2).1.cards.map eraseLU
      = (fetch_all_cards Store.empty pages true t1).1.cards.map eraseLU ∧
    (fetch_all_cards (fetch_all_cards Store.empty pages true t1).1
        pages true t2).1.legalities
      = (fetch_all_cards Store.empty pages true t1).1.legalities ∧
    (fetch_all_cards (fetch_all_cards Store.empty pages true t1).1
        pages true t2).1.keywords
      = (fetch_all_cards Store.empty pages true t1).1.keywords ∧
    (fetch_all_cards (fetch_all_cards Store.empty pages true t1).1
        pages true t2).1.legalities.Nodup ∧
    (fetch_all_cards (fetch_all_cards Store.empty pages true t1).1
        pages true t2).1.keywords.Nodup := by
  have h1 := fetch_all_cards_canon pages t1 hok hnd
  have h2 : fetch_all_cards (fetch_all_cards Store.empty pages true t1).1
      pages true t2 = (canonStore t2 pages.flatten, none) := by
    rw [h1]
    exact fetch_all_cards_canon_again pages t1 t2 hok hnd
  rw [h2, h1]
  refine ⟨rfl, rfl, ?_, rfl, rfl,
    canonLegs_nodup _ hok hnd, canonKws_nodup _ hok hnd⟩
  show (canonCards t2 pages.flatten).map eraseLU
      = (canonCards t1 pages.flatten).map eraseLU
  have hmap : ∀ t, (canonCards t pages.flatten).map eraseLU
      = pages.flatten.map (rowOf "") := by
    intro t
    rw [canonCards, List.map_map]
    apply List.map_congr_left
    intro r _
    exact eraseLU_rowOf t r
  rw [hmap t1, hmap t2]

/-- C1 witness: the amended idempotence theorem applied to the concrete
two-card source `[[sampleA, sampleB]]`. -/
theorem full_sync_twice_idempotent_witness :
    (fetch_all_cards Store.empty [[sampleA, sampleB]] true "T1").2 = none ∧
    (fetch_all_cards (fetch_all_cards Store.empty [[sampleA, sampleB]]
        true "T1").1 [[sampleA, sampleB]] true "T2").2 = none ∧
    (fetch_all_cards (fetch_all_cards Store.empty [[sampleA, sampleB]]
        true "T1").1 [[sampleA, sampleB]] true "T2").1.cards.map eraseLU
      = (fetch_all_cards Store.empty [[sampleA, sampleB]]
        true "T1").1.cards.map eraseLU ∧
    (fetch_all_cards (fetch_all_cards Store.empty [[sampleA, sampleB]]
        true "T1").1 [[sampleA, sampleB]] true "T2").1.legalities
      = (fetch_all_cards Store.empty [[sampleA, sampleB]]
        true "T1").1.legalities ∧
    (fetch_all_cards (fetch_all_cards Store.empty [[sampleA, sampleB]]
        true "T1").1 [[sampleA, sampleB]] true "T2").1.keywords
      = (fetch_all_cards Store.empty [[sampleA, sampleB]]
        true "T1").1.keywords ∧
    (fetch_all_cards (fetch_all_cards Store.empty [[sampleA, sampleB]]
        true "T1").1 [[sampleA, sampleB]] true "T2").1.legalities.Nodup ∧
    (fetch_all_cards (fetch_all_cards Store.empty [[sampleA, sampleB]]
        true "T1").1 [[sampleA, sampleB]] true "T2").1.keywords.Nodup :=
  full_sync_twice_idempotent_mod_last_updated [[sampleA, sampleB]]
    "T1" "T2" (by decide) (by decide)

/-- C2: upserting a record whose id is already stored (overwrite mode)
replaces the full legality and keyword sets of that id: afterwards the
rows for the id are exactly the incoming record's rows, rows of other ids
are untouched, and the iteration raises nothing. -/
theorem upsert_replaces_assoc_rows (s : Store) (r : RawCard) (cid : String)
    (now : String)
    (hid : r.id = some cid) (hok : RecordOk r)
    (hex : (s.cards.any fun c => c.id == cid) = true) :
    (processCard s r true now).2 = none ∧
    (processCard s r true now).1.legalities.filter
        (fun x => x.card_id == cid) = legsOf cid r ∧
    (processCard s r true now).1.keywords.filter
        (fun x => x.card_id == cid) = kwsOf cid r ∧
    (processCard s r true now).1.legalities.filter
        (fun x => ¬ x.card_id == cid)
      = s.legalities.filter (fun x => ¬ x.card_id == cid) ∧
    (processCard s r true now).1.keywords.filter
        (fun x => ¬ x.card_id == cid)
      = s.keywords.filter (fun x => ¬ x.card_id == cid) := by
  have hcid : cidOf r = cid := by simp [cidOf, hid]
  have himg : normImage r = .ok (imgOf r) := hok.img_eq
  rw [processCard_update s r cid (imgOf r) now hid himg hex
    hok.2.2.1 hok.2.2.2]
  refine ⟨rfl, ?_, ?_, ?_, ?_⟩
  · rw [List.filter_append]
    have e1 : (s.legalities.filter (fun x => ¬ x.card_id == cid)).filter
        (fun x => x.card_id == cid) = [] := by
      apply List.filter_eq_nil_iff.2
      intro x hx
      have := List.of_mem_filter hx
      simpa using this
    have e2 : (legsOf cid r).filter (fun x => x.card_id == cid)
        = legsOf cid r := by
      apply List.filter_eq_self.2
      intro x hx
      simp [legsOf_card_id cid r x hx]
    rw [e1, e2, List.nil_append]
  · rw [List.filter_append]
    have e1 : (s.keywords.filter (fun x => ¬ x.card_id == cid)).filter
        (fun x => x.card_id == cid) = [] := by
      apply List.filter_eq_nil_iff.2
      intro x hx
      have := List.of_mem_filter hx
      simpa using this
    have e2 : (kwsOf cid r).filter (fun x => x.card_id == cid)
        = kwsOf cid r := by
      apply List.filter_eq_self.2
      intro x hx
      simp [kwsOf_card_id cid r x hx]
    rw [e1, e2, List.nil_append]
  · rw [List.filter_append]
    have e1 : (s.legalities.filter (fun x => ¬ x.card_id == cid)).filter
        (fun x => ¬ x.card_id == cid)
        = s.legalities.filter (fun x => ¬ x.card_id == cid) := by
      apply List.filter_eq_self.2
      intro x hx
      exact (List.mem_filter.1 hx).2
    have e2 : (legsOf cid r).filter (fun x => ¬ x.card_id == cid) = [] := by
      apply List.filter_eq_nil_iff.2
      intro x hx
      simp [legsOf_card_id cid r x hx]
    rw [e1, e2, List.append_nil]
  · rw [List.filter_append]
    have e1 : (s.keywords.filter (fun x => ¬ x.card_id == cid)).filter
        (fun x => ¬ x.card_id == cid)
        = s.keywords.filter (fun x => ¬ x.card_id == cid) := by
      apply List.filter_eq_self.2
      intro x hx
      exact (List.mem_filter.1 hx).2
    have e2 : (kwsOf cid r).filter (fun x => ¬ x.card_id == cid) = [] := by
      apply List.filter_eq_nil_iff.2
      intro x hx
      simp [kwsOf_card_id cid r x hx]
    rw [e1, e2, List.append_nil]

/-- C2 witness: `sampleA` is stored with legalities standard+modern;
re-upserting it with the shrunken set leaves exactly one legality row for
that id. -/
theorem upsert_replaces_assoc_rows_witness :
    (processCard storeWithA sampleAShrunk true "T2").1.legalities.filter
        (fun x => x.card_id == "a1")
      = [⟨"a1", "modern", "legal"⟩] ∧
    (processCard storeWithA sampleAShrunk true "T2").2 = none := by
  have h := upsert_replaces_assoc_rows storeWithA sampleAShrunk "a1" "T2"
    (by decide) (by decide) (by decide)
  exact ⟨h.2.1.trans (by decide), h.1⟩

/-- C3 counterexample: in the page `[badNoId, sampleA]` the first record
raises KeyError, and the valid `sampleA` that follows is never processed —
the page ends with an empty cards table and a propagated error, against
the claim that later records are still upserted. -/
theorem record_failure_aborts_page_cex :
    (processPage Store.empty [badNoId, sampleA] true "T1").1.cards = [] ∧
    (processPage Store.empty [badNoId, sampleA] true "T1").2
      = some "KeyError: id" := by decide

/-- C3 (amended): `process_card_page` has no per-record exception handler:
the first record whose normalization or upsert raises stops the page at
that record, leaving the state produced by the records before it (plus any
partial writes of the failing record); no later record of the page is
processed. -/
theorem page_stops_at_first_failing_record (s : Store)
    (pre : List RawCard) (c : RawCard) (rest : List RawCard)
    (u : Bool) (t : String) (s1 s2 : Store) (e : String)
    (hpre : processPage s pre u t = (s1, none))
    (hc : processCard s1 c u t = (s2, some e)) :
    processPage s (pre ++ c :: rest) u t = (s2, some e) := by
  rw [processPage_append, hpre]
  show processPage s1 (c :: rest) u t = _
  rw [processPage, hc]

/-- C3 witness: the abort lemma applied to the concrete page
`[sampleA, badNoId, sampleB]` — `sampleB` is dropped. -/
theorem page_stops_at_first_failing_record_witness :
    processPage Store.empty ([sampleA] ++ badNoId :: [sampleB]) true "T1"
      = ((processPage Store.empty [sampleA] true "T1").1,
         some "KeyError: id") :=
  page_stops_at_first_failing_record Store.empty [sampleA] badNoId [sampleB]
    true "T1" (processPage Store.empty [sampleA] true "T1").1
    (processPage Store.empty [sampleA] true "T1").1 "KeyError: id"
    (by decide) (by decide)

/-- C4 counterexample: a storage failure (primary-key violation while
inserting a duplicate keyword) raised inside `update_database`'s run is
caught by its `except Exception` clause: the call returns normally with a
caught-error outcome instead of propagating the failure to its caller. -/
theorem update_database_swallows_storage_error_cex :
    (update_database Store.empty (Response.ok [[dupKwRec]]) "T").2
      = UpdateOutcome.errorCaught 0 "IntegrityError: keywords" := by decide

/-- C4 (amended): an error raised during page processing propagates out of
the upsert operation (`process_card_page`) and out of `fetch_all_cards`
uncaught, but `update_database` catches it and returns normally, reporting
the caught error and the records counted before it. -/
theorem storage_error_propagation (s : Store) (p : List RawCard)
    (rest : List (List RawCard)) (t : String) (s' : Store) (e : String)
    (h : processPage s p true t = (s', some e)) :
    fetch_all_cards s (p :: rest) true t = (s', some e) ∧
    update_database s (Response.ok (p :: rest)) t
      = (s', UpdateOutcome.errorCaught 0 e) := by
  constructor
  · rw [fetch_all_cards, runPages, h]
  · rw [update_database, updatePages, h]

/-- C4 witness: the propagation contrast applied to the concrete
duplicate-keyword page. -/
theorem storage_error_propagation_witness :
    fetch_all_cards Store.empty [[dupKwRec]] true "T"
      = ((processPage Store.empty [dupKwRec] true "T").1,
         some "IntegrityError: keywords") ∧
    update_database Store.empty (Response.ok [[dupKwRec]]) "T"
      = ((processPage Store.empty [dupKwRec] true "T").1,
         UpdateOutcome.errorCaught 0 "IntegrityError: keywords") :=
  storage_error_propagation Store.empty [dupKwRec] [] "T"
    (processPage Store.empty [dupKwRec] true "T").1
    "IntegrityError: keywords" (by decide)

/-- C5: oracle-text normalization — a non-empty direct field is used
unchanged; an empty-or-absent direct field with a faces array yields the
`" // "`-join of the faces' own texts in face order; no text and no faces
yields the empty string (total, no error). -/
theorem oracle_text_normalization (r : RawCard) :
    (∀ t, r.oracle_text = some t → t ≠ "" → normOracle r = t) ∧
    (∀ faces, r.oracle_text.getD "" = "" → r.card_faces = some faces →
      normOracle r
        = String.intercalate " // " (faces.filterMap Face.oracle_text)) ∧
    (r.oracle_text.getD "" = "" → r.card_faces = none → normOracle r = "") := by
  refine ⟨?_, ?_, ?_⟩
  · intro t ht hne
    rw [normOracle, ht]
    cases hf : r.card_faces with
    | none => rfl
    | some faces => simp [hne]
  · intro faces hd hf
    rw [normOracle, hf]
    simp [hd]
  · intro hd hf
    rw [normOracle, hf]
    exact hd

/-- C5 witness: the double-faced record with texts "A" and "B" normalizes
to `"A // B"`, and `sampleB` (no text, no faces) to the empty string. -/
theorem oracle_text_normalization_witness :
    normOracle dfRec = "A // B" ∧ normOracle sampleB = "" := by
  have h1 := (oracle_text_normalization dfRec).2.1
    [⟨some "A", none⟩, ⟨some "B", none⟩] (by decide) (by decide)
  have h2 := (oracle_text_normalization sampleB).2.2 (by decide) (by decide)
  exact ⟨h1.trans (by decide), h2⟩

/-- C6 counterexample: a record with no direct image and an *empty* faces
list makes image extraction raise IndexError — and the whole record
iteration with it — instead of yielding null as claimed. -/
theorem image_empty_faces_cex :
    normImage emptyFacesRec = .error "IndexError: list index out of range" ∧
    (processCard Store.empty emptyFacesRec true "T").2
      = some "IndexError: list index out of range" := by
  exact ⟨rfl, rfl⟩

/-- C6 (amended): the normalized image is the record's direct normal-size
URI when present; otherwise, when the faces array is non-empty, the first
face's normal-size URI or null (no later face is consulted); otherwise
null when there is no faces key — but an empty faces array with no direct
image raises IndexError. -/
theorem image_uri_normalization (r : RawCard) :
    (∀ d u, r.image_uris = some d → dictGet d "normal" = some u →
      normImage r = .ok (some u)) ∧
    (∀ f rest, noDirectImage r = true → r.card_faces = some (f :: rest) →
      normImage r
        = .ok (match f.image_uris with
               | some d => dictGet d "normal"
               | none => none)) ∧
    (noDirectImage r = true → r.card_faces = none → normImage r = .ok none) ∧
    (noDirectImage r = true → r.card_faces = some [] →
      normImage r = .error "IndexError: list index out of range") := by
  refine ⟨?_, ?_, ?_, ?_⟩
  · intro d u hd hu
    rw [normImage, hd]
    show (if (dictGet d "normal").isSome = true then Except.ok (dictGet d "normal")
          else normImage.normImageFaces r) = Except.ok (some u)
    rw [hu]
    rfl
  · intro f rest hnd hf
    have hface : normImage.normImageFaces r
        = .ok (match f.image_uris with
               | some d => dictGet d "normal"
               | none => none) := by
      rw [normImage.normImageFaces, hf]
      show (match f.image_uris with
            | some d => Except.ok (dictGet d "normal")
            | none => Except.ok none) = _
      cases f.image_uris <;> rfl
    rw [normImage]
    cases hd : r.image_uris with
    | none => exact hface
    | some d =>
      rw [noDirectImage, hd, Option.isNone_iff_eq_none] at hnd
      show (if (dictGet d "normal").isSome = true then Except.ok (dictGet d "normal")
            else normImage.normImageFaces r) = _
      rw [hnd]
      simp only [Option.isSome_none, Bool.false_eq_true, if_false]
      exact hface
  · intro hnd hf
    have hface : normImage.normImageFaces r = .ok none := by
      rw [normImage.normImageFaces, hf]
    rw [normImage]
    cases hd : r.image_uris with
    | none => exact hface
    | some d =>
      rw [noDirectImage, hd, Option.isNone_iff_eq_none] at hnd
      show (if (dictGet d "normal").isSome = true then Except.ok (dictGet d "normal")
            else normImage.normImageFaces r) = _
      rw [hnd]
      simp only [Option.isSome_none, Bool.false_eq_true, if_false]
      exact hface
  · intro hnd hf
    have hface : normImage.normImageFaces r
        = .error "IndexError: list index out of range" := by
      rw [normImage.normImageFaces, hf]
    rw [normImage]
    cases hd : r.image_uris with
    | none => exact hface
    | some d =>
      rw [noDirectImage, hd, Option.isNone_iff_eq_none] at hnd
      show (if (dictGet d "normal").isSome = true then Except.ok (dictGet d "normal")
            else normImage.normImageFaces r) = _
      rw [hnd]
      simp only [Option.isSome_none, Bool.false_eq_true, if_false]
      exact hface

/-- C6 witness: the fallback chain evaluated on concrete records — direct
image for `sampleA`, first-face image for `faceImgRec`, null for
`sampleB`. -/
theorem image_uri_normalization_witness :
    normImage sampleA = .ok (some "img-a1") ∧
    normImage faceImgRec = .ok (some "face-uri") ∧
    normImage sampleB = .ok none := by
  have h1 := (image_uri_normalization sampleA).1
    [("normal", "img-a1")] "img-a1" (by decide) (by decide)
  have h2 := (image_uri_normalization faceImgRec).2.1
    ⟨some "A", some [("normal", "face-uri")]⟩
    [⟨some "B", some [("normal", "other-uri")]⟩] (by decide) (by decide)
  have h3 := (image_uri_normalization sampleB).2.2.1 (by decide) (by decide)
  exact ⟨h1, h2.trans (by rfl), h3⟩

theorem strLtB_eq_true_iff (a b : String) : strLtB a b = true ↔ a < b := by
  rw [strLtB, decide_eq_true_eq]
  exact String.lt_iff_toList_lt.symm

theorem sqlMaxStep_some (m d : String) :
    sqlMaxStep (some m) d = some (max m d) := by
  rw [sqlMaxStep]
  by_cases h : m < d
  · rw [if_pos ((strLtB_eq_true_iff m d).2 h), max_eq_right (le_of_lt h)]
  · rw [if_neg (fun hc => h ((strLtB_eq_true_iff m d).1 hc)),
      max_eq_left (not_lt.1 h)]

theorem foldl_sqlMaxStep_some (l : List String) : ∀ (m : String),
    l.foldl sqlMaxStep (some m) = some (l.foldl max m) := by
  induction l with
  | nil => intro m; rfl
  | cons d rest ih =>
    intro m
    rw [List.foldl_cons, List.foldl_cons, sqlMaxStep_some, ih]

/-- `SELECT MAX(released_at)` agrees with the library list maximum. -/
theorem maxReleasedAt_eq_max? (s : Store) :
    maxReleasedAt s = (s.cards.map CardRow.released_at).max? := by
  rw [maxReleasedAt]
  cases h : s.cards.map CardRow.released_at with
  | nil => rfl
  | cons a as =>
    rw [List.foldl_cons]
    show as.foldl sqlMaxStep (sqlMaxStep none a) = _
    rw [show sqlMaxStep none a = some a from rfl, foldl_sqlMaxStep_some,
      List.max?]

/-- C7 (amended): the incremental query lower bound is the maximum
`released_at` over all stored card rows whenever that maximum is a
non-empty string; an empty store — and, by Python truthiness, an
empty-string maximum — defaults to the sentinel "2000-01-01". -/
theorem incremental_watermark (s : Store) :
    (s.cards = [] →
      last_update_date s = "2000-01-01" ∧
      search_query s = "date>2000-01-01") ∧
    (∀ d, maxReleasedAt s = some d → d ≠ "" →
      last_update_date s = d ∧
      search_query s = "date>" ++ d ∧
      d ∈ s.cards.map CardRow.released_at ∧
      ∀ x ∈ s.cards.map CardRow.released_at, x ≤ d) := by
  constructor
  · intro h
    have hmax : maxReleasedAt s = none := by
      rw [maxReleasedAt, h]
      rfl
    constructor
    · rw [last_update_date, hmax]
    · rw [search_query, last_update_date, hmax]
      rfl
  · intro d hd hne
    have hlud : last_update_date s = d := by
      rw [last_update_date, hd]
      show (if d = "" then "2000-01-01" else d) = d
      rw [if_neg hne]
    have hd' : (s.cards.map CardRow.released_at).max? = some d := by
      rw [← maxReleasedAt_eq_max?, hd]
    refine ⟨hlud, by rw [search_query, hlud], ?_, ?_⟩
    · exact List.max?_mem max_choice hd'
    · intro x hx
      exact (List.max?_le_iff (fun _ _ _ => max_le_iff) hd' (x := d)).1
        le_rfl x hx

/-- C7 witness: on the spec's example store the bound is the maximum
"2023-05-05", and on the empty store the sentinel. -/
theorem incremental_watermark_witness :
    last_update_date twoCardStore = "2023-05-05" ∧
    search_query twoCardStore = "date>2023-05-05" ∧
    last_update_date Store.empty = "2000-01-01" := by
  have h1 := (incremental_watermark twoCardStore).2 "2023-05-05"
    (by decide) (by decide)
  have h2 := (incremental_watermark Store.empty).1 rfl
  exact ⟨h1.1, h1.2.1.trans (by decide), h2.1⟩

/-- C7 counterexample: a non-empty store whose maximum `released_at` is
the empty string — the claimed bound is that maximum "", but the code's
Python truthiness test replaces it with the sentinel "2000-01-01". -/
theorem watermark_ignores_empty_string_max :
    maxReleasedAt noRelStore = some "" ∧
    noRelStore.cards ≠ [] ∧
    last_update_date noRelStore = "2000-01-01" := by
  refine ⟨rfl, by decide, rfl⟩

/-- C8: a 404 on the incremental query is the distinguished "no new
cards" result: the run returns normally with zero records processed and
none of the three tables is touched. -/
theorem incremental_404_no_mutation (s : Store) (now : String) :
    update_database s Response.notFound now = (s, UpdateOutcome.noNewCards) ∧
    (update_database s Response.notFound now).1.cards = s.cards ∧
    (update_database s Response.notFound now).1.legalities = s.legalities ∧
    (update_database s Response.notFound now).1.keywords = s.keywords :=
  ⟨rfl, rfl, rfl, rfl⟩

theorem flatten_escape (l : List Char)
    (h : ∀ ch ∈ l, (!(ch == '"') && !(ch == '\\')) = true) :
    (l.map jsonEscapeChar).flatten = l := by
  induction l with
  | nil => rfl
  | cons a rest ih =>
    rw [List.map_cons, List.flatten_cons]
    have ha := h a (by simp)
    have hesc : jsonEscapeChar a = [a] := by
      rw [jsonEscapeChar, if_neg]
      simp only [Bool.and_eq_true, Bool.not_eq_true', beq_eq_false_iff_ne] at ha
      tauto
    rw [hesc, ih (fun ch hch => h ch (by simp [hch])), List.singleton_append]

theorem jsonEscape_clean (c : String) (h : cleanColor c = true) :
    jsonEscape c = c := by
  rw [cleanColor, List.all_eq_true] at h
  rw [jsonEscape]
  apply String.ext
  show (c.toList.map jsonEscapeChar).flatten = c.data
  rw [flatten_escape c.toList h]
  rfl

theorem jsonSingle_data (c : String) (h : cleanColor c = true) :
    (jsonList [c]).data = '[' :: '"' :: (c.data ++ ['"', ']']) := by
  rw [jsonList, jsonItems, jsonStr, jsonEscape_clean c h]
  simp [String.data_append]

theorem jsonSingle_eq_iff (c w : String) (hc : cleanColor c = true)
    (hw : cleanColor w = true) :
    jsonList [c] = jsonList [w] ↔ c = w := by
  constructor
  · intro h
    rw [String.ext_iff, jsonSingle_data c hc, jsonSingle_data w hw] at h
    apply String.ext
    injection h with h1 h2
    injection h2 with h3 h4
    exact List.append_cancel_right h4
  · rintro rfl
    rfl

theorem jsonSingle_ne_nil (c : String) (hc : cleanColor c = true) :
    jsonList [c] ≠ "[]" := by
  intro h
  rw [String.ext_iff, jsonSingle_data c hc] at h
  simp at h

theorem jsonStr_two_le (x : String) : 2 ≤ (jsonStr x).length := by
  rw [jsonStr]
  simp only [String.length_append]
  have h1 : ("\"" : String).length = 1 := rfl
  omega

theorem jsonItems_two_le (y : String) (rest : List String) :
    2 ≤ (jsonItems (y :: rest)).length := by
  cases rest with
  | nil => exact jsonStr_two_le y
  | cons z zs =>
    rw [jsonItems]
    simp only [String.length_append]
    have := jsonStr_two_le y
    omega

theorem jsonMulti_eight_le (x y : String) (rest : List String) :
    8 ≤ (jsonList (x :: y :: rest)).length := by
  rw [jsonList, jsonItems]
  simp only [String.length_append]
  have h1 : ("[" : String).length = 1 := rfl
  have h2 : ("]" : String).length = 1 := rfl
  have h3 : (", " : String).length = 2 := rfl
  have h4 := jsonStr_two_le x
  have h5 := jsonItems_two_le y rest
  omega

/-- The CASE expression of `get_stats` refines the spec's decoded-list
classification rule on escape-free color codes. -/
theorem colorGroup_refines (l : List String)
    (hc : ∀ c ∈ l, cleanColor c = true) :
    colorGroupOf (jsonList l) = specColorGroup l := by
  match l with
  | [] => decide
  | [c] =>
    have hc' : cleanColor c = true := hc c (by simp)
    show colorGroupOf (jsonList [c]) = _
    by_cases hW : c = "W"
    · subst hW; decide
    by_cases hU : c = "U"
    · subst hU; decide
    by_cases hB : c = "B"
    · subst hB; decide
    by_cases hR : c = "R"
    · subst hR; decide
    by_cases hG : c = "G"
    · subst hG; decide
    rw [colorGroupOf,
      if_neg (jsonSingle_ne_nil c hc'),
      if_neg (fun h => hW ((jsonSingle_eq_iff c "W" hc' (by decide)).1
        (h.trans (by decide)))),
      if_neg (fun h => hU ((jsonSingle_eq_iff c "U" hc' (by decide)).1
        (h.trans (by decide)))),
      if_neg (fun h => hB ((jsonSingle_eq_iff c "B" hc' (by decide)).1
        (h.trans (by decide)))),
      if_neg (fun h => hR ((jsonSingle_eq_iff c "R" hc' (by decide)).1
        (h.trans (by decide)))),
      if_neg (fun h => hG ((jsonSingle_eq_iff c "G" hc' (by decide)).1
        (h.trans (by decide))))]
    show _ = (if c = "W" then "White"
      else if c = "U" then "Blue"
      else if c = "B" then "Black"
      else if c = "R" then "Red"
      else if c = "G" then "Green"
      else "Multicolor")
    rw [if_neg hW, if_neg hU, if_neg hB, if_neg hR, if_neg hG]
  | x :: y :: rest =>
    have hlen := jsonMulti_eight_le x y rest
    have hne : ∀ t : String, t.length = 5 ∨ t.length = 2 →
        jsonList (x :: y :: rest) ≠ t := by
      intro t ht h
      have h' := congrArg String.length h
      rcases ht with ht | ht <;> omega
    show colorGroupOf (jsonList (x :: y :: rest)) = _
    rw [colorGroupOf,
      if_neg (hne "[]" (Or.inr rfl)),
      if_neg (hne "[\"W\"]" (Or.inl rfl)),
      if_neg (hne "[\"U\"]" (Or.inl rfl)),
      if_neg (hne "[\"B\"]" (Or.inl rfl)),
      if_neg (hne "[\"R\"]" (Or.inl rfl)),
      if_neg (hne "[\"G\"]" (Or.inl rfl))]
    rfl

/-- The CASE chain of `get_stats`'s type classification is the first-match
rule over the fixed priority list. -/
theorem typeGroup_refines (tl : String) : typeGroupOf tl = specTypeGroup tl := by
  rw [typeGroupOf, specTypeGroup, typePriority]
  by_cases h1 : ciContains tl "Creature" = true
  · rw [if_pos h1, List.find?_cons_of_pos _ h1]; rfl
  rw [if_neg h1, List.find?_cons_of_neg _ h1]
  by_cases h2 : ciContains tl "Planeswalker" = true
  · rw [if_pos h2, List.find?_cons_of_pos _ h2]; rfl
  rw [if_neg h2, List.find?_cons_of_neg _ h2]
  by_cases h3 : ciContains tl "Instant" = true
  · rw [if_pos h3, List.find?_cons_of_pos _ h3]; rfl
  rw [if_neg h3, List.find?_cons_of_neg _ h3]
  by_cases h4 : ciContains tl "Sorcery" = true
  · rw [if_pos h4, List.find?_cons_of_pos _ h4]; rfl
  rw [if_neg h4, List.find?_cons_of_neg _ h4]
  by_cases h5 : ciContains tl "Enchantment" = true
  · rw [if_pos h5, List.find?_cons_of_pos _ h5]; rfl
  rw [if_neg h5, List.find?_cons_of_neg _ h5]
  by_cases h6 : ciContains tl "Artifact" = true
  · rw [if_pos h6, List.find?_cons_of_pos _ h6]; rfl
  rw [if_neg h6, List.find?_cons_of_neg _ h6]
  by_cases h7 : ciContains tl "Land" = true
  · rw [if_pos h7, List.find?_cons_of_pos _ h7]; rfl
  rw [if_neg h7, List.find?_cons_of_neg _ h7]
  rfl

/-- C9: `get_stats` classifies the color group of a stored row from the
encoded color-identity by exact match, agreeing with the spec's decoded
rule, and the type group by first match over the fixed priority order with
fallback "Other"; "Artifact Creature — Golem" classifies as "Creature". -/
theorem stats_classification (l : List String) (tl : String)
    (hc : ∀ c ∈ l, cleanColor c = true) :
    colorGroupOf (jsonList l) = specColorGroup l ∧
    typeGroupOf tl = specTypeGroup tl ∧
    typeGroupOf "Artifact Creature — Golem" = "Creature" :=
  ⟨colorGroup_refines l hc, typeGroup_refines tl, by decide⟩

/-- C9 witness: the classification theorem evaluated at the spec's
examples. -/
theorem stats_classification_witness :
    colorGroupOf (jsonList []) = "Colorless" ∧
    colorGroupOf (jsonList ["U"]) = "Blue" ∧
    colorGroupOf (jsonList ["U", "B"]) = "Multicolor" ∧
    typeGroupOf "Artifact Creature — Golem" = "Creature" := by
  have h0 := stats_classification [] "x" (by decide)
  have h1 := stats_classification ["U"] "x" (by decide)
  have h2 := stats_classification ["U", "B"] "x" (by decide)
  exact ⟨h0.1.trans (by decide), h1.1.trans (by decide),
    h2.1.trans (by decide), h2.2.2⟩

/-- C10: `search_cards` wraps the query in `%` and applies SQL LIKE, so a
`%` inside the query acts as a wildcard: the query "a%z" returns the
stored card "aXYz" although none of its three searched fields contains
"a%z" as a literal substring. -/
theorem search_cards_wildcard :
    (search_cards wildStore "a%z" 20).map SearchHit.id = ["w7"] ∧
    ∀ h ∈ search_cards wildStore "a%z" 20,
      litContains h.name "a%z" = false ∧
      litContains h.oracle_text "a%z" = false ∧
      litContains h.type_line "a%z" = false := by decide

end MTGLocal
